import Mathlib

/-!
Shallow embedding of `src/bot.py` (restaurant staff-review bot).

Conventions of the embedding:
* JSON numbers are `ℚ`; `datetime` values are `ℤ` (seconds since an epoch),
  so `timedelta(days=1)` is the constant `secondsPerDay = 86400` and
  `now - last_time < timedelta(days=1)` is integer comparison.
* Python `round(x, 1)` rounds half-to-even (banker's rounding); it is modelled
  exactly on `ℚ` by `round1`.
* A JSON object field that may be absent is an `Option`; `dict.get(k, d)` is
  `Option.getD`, a plain `obj[k]` access on a possibly-missing key is an
  `Except`-error (Python `KeyError`).
* Python `dict`s keep insertion order, so they are association lists;
  `dict.setdefault` appends at the end when the key is absent.
-/

namespace Foros

/-- A review record, as appended by `review_text` in `bot.py`:
`{user_id, user, rating, text, date}`.  `user_id` is `Option` because
`can_leave_review` reads it with `r.get("user_id")` (key may be absent in
pre-seeded data). -/
structure Review where
  user_id : Option ℤ
  user : String
  rating : ℚ
  text : String
  date : ℤ
deriving DecidableEq

/-- `timedelta(days=1)` in seconds. -/
def secondsPerDay : ℤ := 86400

/-- `can_leave_review(obj, user_id)` from `bot.py` (lines 122–129), with the
implicit `datetime.now()` made an explicit parameter `now` and the
`obj["reviews"]` list passed directly.  The Python loop returns `False` as soon
as some review by the same user is strictly less than one day old, else `True`. -/
def can_leave_review (reviews : List Review) (user_id : ℤ) (now : ℤ) : Bool :=
  reviews.all fun r =>
    if r.user_id = some user_id then
      if now - r.date < secondsPerDay then false else true
    else true

/-- Round a rational to the nearest integer, ties to even: the rounding used by
Python's `round` builtin. -/
def roundHalfEven (q : ℚ) : ℤ :=
  let f : ℤ := ⌊q⌋
  let frac : ℚ := q - f
  if frac < 1/2 then f
  else if 1/2 < frac then f + 1
  else if f % 2 = 0 then f else f + 1

/-- Python `round(q, 1)`: round to one decimal place, ties to even. -/
def round1 (q : ℚ) : ℚ :=
  (roundHalfEven (q * 10) : ℚ) / 10

/-- A review target as mutated by `review_text`: either a staff record or a
workshop record; only the `rating` and `reviews` fields are touched. -/
structure Target where
  rating : ℚ
  reviews : List Review
deriving DecidableEq

/-- The store mutation performed by `review_text` in `bot.py` (lines 425–453) on
the selected target `obj`: append the new review, then set
`obj["rating"] = round(sum(r["rating"] for r in obj["reviews"]) / len(obj["reviews"]), 1)`. -/
def review_text_update (obj : Target) (user_id : ℤ) (user : String) (rating : ℚ)
    (text : String) (now : ℤ) : Target :=
  let reviews := obj.reviews ++ [⟨some user_id, user, rating, text, now⟩]
  { reviews := reviews
    rating := round1 ((reviews.map Review.rating).sum / (reviews.length : ℚ)) }

/-- The spec's rating invariant: `rating` is the arithmetic mean of all review
ratings rounded to one decimal place, and `0` when there are no reviews. -/
def rating_invariant (t : Target) : Prop :=
  if t.reviews.length = 0 then t.rating = 0
  else t.rating = round1 ((t.reviews.map Review.rating).sum / (t.reviews.length : ℚ))

/-! ### Categories (`bot.py` lines 37–47) -/

/-- `KITCHEN_CATEGORIES` from `bot.py`: key → display label. -/
def KITCHEN_CATEGORIES : List (String × String) :=
  [("cold_kitchen", "🥗 Холодный цех"),
   ("hot_kitchen", "🍲 Горячий цех"),
   ("pastry_kitchen", "🍕 Мучной цех")]

/-- `ALL_CATEGORIES` from `bot.py`: the two staff categories followed by the
kitchen categories (Python dict-literal insertion order). -/
def ALL_CATEGORIES : List (String × String) :=
  [("waiters", "🤵 Официанты"), ("bartenders", "🍸 Бар")] ++ KITCHEN_CATEGORIES

/-- The kitchen category keys, in order. -/
def kitchenKeys : List String := KITCHEN_CATEGORIES.map Prod.fst

/-- All category keys, in order. -/
def allKeys : List String := ALL_CATEGORIES.map Prod.fst

/-- `ALL_CATEGORIES.get(category, category)` from `get_top_staff`. -/
def cat_label (category : String) : String :=
  (ALL_CATEGORIES.lookup category).getD category

/-! ### The persisted document (`staff_data.json`) -/

/-- A workshop record as stored in the JSON document; either field may be
absent in an old document (`load_staff_data` back-fills them). -/
structure RawWorkshop where
  rating : Option ℚ
  reviews : Option (List Review)
deriving DecidableEq

/-- A staff record as stored in the JSON document.  Every field may be absent:
records are pre-seeded out-of-band and `load_staff_data` does not touch them;
`get_top_staff` reads `rating`/`reviews` with `dict.get` defaults. -/
structure RawStaff where
  name : Option String
  phone : Option String
  rating : Option ℚ
  reviews : Option (List Review)
  photo : Option String
deriving DecidableEq

/-- The value stored under one category key: a workshop record (kitchen
categories) or a mapping staff-id → staff record (other categories). -/
inductive CatValue where
  | workshop (w : RawWorkshop)
  | staff (m : List (String × RawStaff))
deriving DecidableEq

/-- The whole document: an insertion-ordered mapping category-key → value
(Python dicts preserve insertion order). -/
abbrev Doc := List (String × CatValue)

/-- `staff_data[k]`. -/
def lookupCat (d : Doc) (k : String) : Option CatValue :=
  d.lookup k

/-- `staff_data[category][staff_id]` (for a staff category). -/
def lookupStaff (d : Doc) (category staff_id : String) : Option RawStaff :=
  match lookupCat d category with
  | some (.staff m) => m.lookup staff_id
  | _ => none

/-- `data[k].setdefault("rating", 0); data[k].setdefault("reviews", [])` after
`data.setdefault(k, {})` for a kitchen key `k`, applied to the current value
(`none` when the key was absent).  A kitchen key holding a staff mapping is
outside the document schema of the data model and is left unchanged. -/
def backfillKitchenValue : Option CatValue → CatValue
  | none => .workshop ⟨some 0, some []⟩
  | some (.workshop w) => .workshop ⟨some (w.rating.getD 0), some (w.reviews.getD [])⟩
  | some (.staff m) => .staff m

/-- The per-kitchen-key back-fill step of `load_staff_data`: replace the first
binding of `k` in place, or append a fresh default binding at the end
(`dict.setdefault` appends absent keys at the end). -/
def setKitchenDefaults : Doc → String → Doc
  | [], k => [(k, backfillKitchenValue none)]
  | (k', v) :: rest, k =>
    if k' = k then (k', backfillKitchenValue (some v)) :: rest
    else (k', v) :: setKitchenDefaults rest k

/-- `data.setdefault(k, {})` for a staff category key `k`. -/
def setStaffDefault : Doc → String → Doc
  | [], k => [(k, .staff [])]
  | (k', v) :: rest, k =>
    if k' = k then (k', v) :: rest
    else (k', v) :: setStaffDefault rest k

/-- `load_staff_data()` from `bot.py` (lines 61–82).  `file` is the parsed JSON
document, `none` when `DATA_FILE` does not exist (fresh default document);
otherwise every category key is back-filled in `ALL_CATEGORIES` order. -/
def load_staff_data (file : Option Doc) : Doc :=
  match file with
  | none =>
    allKeys.foldl
      (fun d k =>
        if k ∈ kitchenKeys then d ++ [(k, .workshop ⟨some 0, some []⟩)]
        else d ++ [(k, .staff [])])
      []
  | some d =>
    allKeys.foldl
      (fun d k =>
        if k ∈ kitchenKeys then setKitchenDefaults d k
        else setStaffDefault d k)
      d

/-- `save_staff_data()` from `bot.py` (lines 85–87): `json.dump` of the whole
document.  Serialising the typed document and re-parsing it is the identity at
this level of abstraction, so saving is modelled as the identity; the content
of the round-trip claim lives in the back-filling `load_staff_data` does. -/
def save_staff_data (d : Doc) : Doc := d

/-- The fresh default document (`load_staff_data` with no file). -/
def freshDoc : Doc := load_staff_data none

/-! ### Ranking (`get_top_staff`, `bot.py` lines 95–113) -/

/-- One projected leaderboard entry, as appended by `get_top_staff`. -/
structure RankEntry where
  name : String
  rating : ℚ
  reviews : ℕ
  category : String
deriving DecidableEq

/-- The per-staff-record body of the inner loop of `get_top_staff`:
`if staff.get("rating", 0) > 0 and len(staff.get("reviews", [])) >= min_reviews`
then project the record, raising `KeyError` if a directly-indexed key
(`staff["name"]`, `staff["rating"]`, `staff["reviews"]`) is absent. -/
def staff_entry_step (min_reviews : ℕ) (label : String) (staff : RawStaff) :
    Except String (Option RankEntry) :=
  if 0 < staff.rating.getD 0 ∧ min_reviews ≤ (staff.reviews.getD []).length then
    match staff.name, staff.rating, staff.reviews with
    | some n, some ra, some rs => .ok (some ⟨n, ra, rs.length, label⟩)
    | _, _, _ => .error "KeyError"
  else
    .ok none

/-- The inner loop of `get_top_staff` over one category's staff mapping,
appending projected entries in insertion order. -/
def collect_staff (m : List (String × RawStaff)) (min_reviews : ℕ) (label : String) :
    Except String (List RankEntry) :=
  match m with
  | [] => .ok []
  | (_, s) :: rest =>
    match staff_entry_step min_reviews label s with
    | .error err => .error err
    | .ok eo =>
      match collect_staff rest min_reviews label with
      | .error err => .error err
      | .ok r => .ok (match eo with | some x => x :: r | none => r)

/-- The body of the outer loop of `get_top_staff` for one category: kitchen
categories are skipped; a staff mapping is scanned with `collect_staff`.  A
workshop value under a non-kitchen key is outside the schema: iterating it as a
staff mapping raises `AttributeError` on its first scalar field (and yields
nothing when it has no fields). -/
def collect_cat (min_reviews : ℕ) (category : String) (v : CatValue) :
    Except String (List RankEntry) :=
  if category ∈ kitchenKeys then .ok []
  else
    match v with
    | .staff m => collect_staff m min_reviews (cat_label category)
    | .workshop w =>
      if w.rating = none ∧ w.reviews = none then .ok [] else .error "AttributeError"

/-- The unsorted `result` list of `get_top_staff`: categories in document
order, staff entries in insertion order within a category. -/
def collect_entries (doc : Doc) (min_reviews : ℕ) : Except String (List RankEntry) :=
  match doc with
  | [] => .ok []
  | (c, v) :: rest =>
    match collect_cat min_reviews c v with
    | .error err => .error err
    | .ok e =>
      match collect_entries rest min_reviews with
      | .error err => .error err
      | .ok r => .ok (e ++ r)

/-- The comparison of `result.sort(key=lambda x: x["rating"], reverse=True)`:
`a` may stay before `b` exactly when `a`'s rating is ≥ `b`'s.  Python's sort
is stable, as is `List.mergeSort`. -/
def ratingDescending (a b : RankEntry) : Bool :=
  decide (b.rating ≤ a.rating)

/-- `get_top_staff` up to (and including) the sort, before truncation. -/
def get_top_staff_sorted (doc : Doc) (min_reviews : ℕ) : Except String (List RankEntry) :=
  (collect_entries doc min_reviews).map fun l => l.mergeSort ratingDescending

/-- `get_top_staff(min_reviews=3, limit=10)` from `bot.py` (lines 95–113):
collect, sort by rating descending (stable), truncate to `limit`. -/
def get_top_staff (doc : Doc) (min_reviews : ℕ := 3) (limit : ℕ := 10) :
    Except String (List RankEntry) :=
  (get_top_staff_sorted doc min_reviews).map fun l => l.take limit

/-! ### Review-start handlers (`bot.py` lines 367–413) -/

/-- The aiogram FSM states `ReviewStates.rating` / `ReviewStates.text`. -/
inductive Phase where
  | rating
  | text
deriving DecidableEq

/-- The aiogram per-user FSM data dict, as used by the review flow
(`state.update_data(category=…, staff_id=…, workshop=…, rating=…)`). -/
structure FSMData where
  category : Option String
  staff_id : Option String
  workshop : Bool
  pending_rating : Option ℚ
deriving DecidableEq

/-- The aiogram per-user dialogue session: current state plus data dict. -/
structure FSMState where
  state : Option Phase
  data : FSMData
deriving DecidableEq

/-- What a review-start handler sends back: a `cb.answer(…, show_alert=True)`
rejection, or the 1–5 star picker message. -/
inductive StartResponse where
  | alert (msg : String)
  | ratingPrompt (msg : String)
deriving DecidableEq

/-- `review_workshop_start` from `bot.py` (lines 367–388): look up the
workshop, consult `can_leave_review`; on rejection answer with an alert and
return without touching the session; otherwise store the pending target and
enter the rating phase.  `can_leave_review` reads `obj["reviews"]`, so an
absent `reviews` key (or a staff mapping under the key) raises `KeyError`. -/
def review_workshop_start (doc : Doc) (category : String) (user_id now : ℤ)
    (fsm : FSMState) : Except String (Doc × FSMState × StartResponse) :=
  match lookupCat doc category with
  | none => .error "KeyError"
  | some (.staff _) => .error "KeyError"
  | some (.workshop w) =>
    match w.reviews with
    | none => .error "KeyError"
    | some revs =>
      if can_leave_review revs user_id now = false then
        .ok (doc, fsm, .alert "❌ Вы уже оставляли отзыв этому цеху сегодня")
      else
        .ok (doc,
          { state := some .rating,
            data := { fsm.data with category := some category, workshop := true } },
          .ratingPrompt "Оцените цех:")

/-- `review_staff_start` from `bot.py` (lines 390–413): same shape as the
workshop handler, for `staff_data[category][staff_id]`. -/
def review_staff_start (doc : Doc) (category staff_id : String) (user_id now : ℤ)
    (fsm : FSMState) : Except String (Doc × FSMState × StartResponse) :=
  match lookupStaff doc category staff_id with
  | none => .error "KeyError"
  | some staff =>
    match staff.reviews with
    | none => .error "KeyError"
    | some revs =>
      if can_leave_review revs user_id now = false then
        .ok (doc, fsm, .alert "❌ Вы уже оставляли отзыв этому сотруднику сегодня")
      else
        .ok (doc,
          { state := some .rating,
            data := { fsm.data with category := some category, staff_id := some staff_id } },
          .ratingPrompt "Выберите оценку:")

/-! ### Concrete scenario data (spec §8) -/

/-- "Ann" in `waiters` after three review submissions rated 5, 4, 5. -/
def annAfter3 : Target :=
  review_text_update
    (review_text_update
      (review_text_update ⟨0, []⟩ 1 "g1" 5 "great" 1000)
      2 "g2" 4 "good" 2000)
    3 "g3" 5 "nice" 3000

/-- "Ann" after a fourth review rated 3. -/
def annAfter4 : Target :=
  review_text_update annAfter3 4 "g4" 3 "ok" 200000

/-- `Except` values with decidable components have decidable equality. -/
instance exceptDecEq {ε α : Type} [DecidableEq ε] [DecidableEq α] :
    DecidableEq (Except ε α) := fun x y =>
  match x, y with
  | .error a, .error b =>
    if h : a = b then isTrue (by rw [h]) else isFalse (by simp [h])
  | .ok a, .ok b =>
    if h : a = b then isTrue (by rw [h]) else isFalse (by simp [h])
  | .error _, .ok _ => isFalse (by simp)
  | .ok _, .error _ => isFalse (by simp)

/-- A concrete waiter record: "Alice", rated 5 with one review. -/
def aliceStaff : RawStaff :=
  ⟨some "Alice", some "111", some 5, some [⟨some 10, "u1", 5, "t1", 0⟩], none⟩

/-- A concrete waiter record: "Bob", also rated 5 with one review. -/
def bobStaff : RawStaff :=
  ⟨some "Bob", some "222", some 5, some [⟨some 11, "u2", 5, "t2", 0⟩], none⟩

/-- A document with two equally-rated waiters, Alice inserted before Bob. -/
def stableWitnessDoc : Doc :=
  [("waiters", .staff [("a", aliceStaff), ("b", bobStaff)])]

/-- The entries `get_top_staff` collects from `stableWitnessDoc`, in encounter
order. -/
def stableWitnessCollected : List RankEntry :=
  [⟨"Alice", 5, 1, cat_label "waiters"⟩, ⟨"Bob", 5, 1, cat_label "waiters"⟩]

/-- The shape `load_staff_data` guarantees (and the program then maintains):
every kitchen category holds a workshop record with both fields present, and
every staff category key is present. -/
def doc_complete (d : Doc) : Bool :=
  (kitchenKeys.all fun k =>
    match lookupCat d k with
    | some (.workshop w) => w.rating.isSome && w.reviews.isSome
    | _ => false) &&
  (allKeys.all fun k => kitchenKeys.contains k || (lookupCat d k).isSome)

/-- An empty aiogram session: no dialogue state, empty data dict. -/
def emptyFSM : FSMState := ⟨none, ⟨none, none, false, none⟩⟩

/-- A review left by user 7 at time 0. -/
def recentReview : Review := ⟨some 7, "u", 5, "t", 0⟩

/-- A staff record whose only review is `recentReview`. -/
def staffRecent : RawStaff := ⟨some "X", some "1", some 5, some [recentReview], none⟩

/-- A document in which user 7 recently reviewed both the waiter `s1` and the
cold-kitchen workshop. -/
def rejectWitnessDoc : Doc :=
  [("waiters", .staff [("s1", staffRecent)]),
   ("cold_kitchen", .workshop ⟨some 5, some [recentReview]⟩)]

/-- A staff record lacking both the `rating` and the `reviews` keys. -/
def noRatingStaff : RawStaff := ⟨some "X", some "1", none, none, none⟩

/-!
## Theorems
-/

/-- Claim C1: after the review-submission flow completes, the target's `rating`
field equals the arithmetic mean of all ratings in its `reviews` sequence
rounded to one decimal place (and would be 0 were the sequence empty); the
invariant holds after `review_text`'s mutation — the only store mutation in the
program — and holds of the freshly back-filled workshop record `⟨0, []⟩`. -/
theorem review_flow_rating_invariant (obj : Target) (uid : ℤ) (un : String)
    (ra : ℚ) (tx : String) (now : ℤ) :
    rating_invariant (review_text_update obj uid un ra tx now) ∧
    rating_invariant ⟨0, []⟩ := by
  refine ⟨?_, by simp [rating_invariant]⟩
  simp [rating_invariant, review_text_update]

/-- Claim C10: the rating recomputation in `review_text` divides by the length
of the reviews sequence after the append, which is `length + 1 ≥ 1`, so the
division is never by zero. -/
theorem review_text_no_zero_division (obj : Target) (uid : ℤ) (un : String)
    (ra : ℚ) (tx : String) (now : ℤ) :
    (review_text_update obj uid un ra tx now).reviews.length = obj.reviews.length + 1 ∧
    0 < (review_text_update obj uid un ra tx now).reviews.length ∧
    (review_text_update obj uid un ra tx now).rating =
      round1 (((review_text_update obj uid un ra tx now).reviews.map Review.rating).sum /
        ((obj.reviews.length : ℚ) + 1)) := by
  refine ⟨by simp [review_text_update], by simp [review_text_update], ?_⟩
  simp [review_text_update]

/-- Claim C2, counterexample: after the fourth review the recomputed rating is
not 4.3 — Python's `round` rounds half to even, and `round(17/4, 1) = 4.2`. -/
theorem ann_fourth_review_not_43_tenths : annAfter4.rating ≠ 43/10 := by
  norm_num [annAfter4, annAfter3, review_text_update, round1, roundHalfEven]

/-- Claim C2, amended: three reviews rated 5, 4, 5 give rating
`round(14/3, 1) = 4.7`; the fourth review rated 3 gives `round(17/4, 1) = 4.2`
(ties round to even). -/
theorem ann_reviews_scenario : annAfter3.rating = 47/10 ∧ annAfter4.rating = 21/5 := by
  constructor <;> norm_num [annAfter4, annAfter3, review_text_update, round1, roundHalfEven]

/-- Claim C3: `can_leave_review` returns `false` iff the target's reviews
contain an entry by the same reviewer strictly less than 24 hours old; in
particular it returns `true` on an empty history, a second attempt 12 hours
after a review is rejected, and an attempt 25 hours after is accepted. -/
theorem can_leave_review_spec (reviews : List Review) (uid now : ℤ) :
    (can_leave_review reviews uid now = false ↔
      ∃ r ∈ reviews, r.user_id = some uid ∧ now - r.date < secondsPerDay) ∧
    can_leave_review [] uid now = true ∧
    (∀ t0 : ℤ, ∀ name txt : String, ∀ q : ℚ,
      can_leave_review [⟨some uid, name, q, txt, t0⟩] uid (t0 + 12 * 3600) = false ∧
      can_leave_review [⟨some uid, name, q, txt, t0⟩] uid (t0 + 25 * 3600) = true) := by
  refine ⟨?_, rfl, fun t0 name txt q =>
    ⟨by simp [can_leave_review, secondsPerDay], by simp [can_leave_review, secondsPerDay]⟩⟩
  rw [Bool.eq_false_iff]
  simp only [can_leave_review, ne_eq, List.all_eq_true, not_forall]
  constructor
  · rintro ⟨r, hr, hp⟩
    refine ⟨r, hr, ?_⟩
    by_cases h1 : r.user_id = some uid
    · by_cases h2 : now - r.date < secondsPerDay
      · exact ⟨h1, h2⟩
      · simp [h1, h2] at hp
    · simp [h1] at hp
  · rintro ⟨r, hr, h1, h2⟩
    exact ⟨r, hr, by simp [h1, h2]⟩

/-- `ratingDescending` is transitive. -/
theorem ratingDescending_trans :
    ∀ a b c, ratingDescending a b → ratingDescending b c → ratingDescending a c := by
  intro a b c h1 h2
  simp only [ratingDescending, decide_eq_true_eq] at h1 h2 ⊢
  exact le_trans h2 h1

/-- `ratingDescending` is total. -/
theorem ratingDescending_total : ∀ a b, ratingDescending a b || ratingDescending b a := by
  intro a b
  simp only [ratingDescending, Bool.or_eq_true, decide_eq_true_eq]
  exact le_total b.rating a.rating

/-- A record the inner loop projects has positive rating, enough reviews, and
carries the given category label. -/
theorem staff_entry_step_ok_some {minR : ℕ} {label : String} {s : RawStaff} {e : RankEntry}
    (h : staff_entry_step minR label s = .ok (some e)) :
    0 < e.rating ∧ minR ≤ e.reviews ∧ e.category = label := by
  obtain ⟨sn, sp, sr, sv, sph⟩ := s
  unfold staff_entry_step at h
  split at h
  · rename_i hcond
    cases sn <;> cases sr <;> cases sv <;> try exact Except.noConfusion h
    rename_i n ra rs
    injection h with h'
    injection h' with h''
    subst h''
    simp only [Option.getD_some] at hcond
    exact ⟨hcond.1, hcond.2, rfl⟩
  · simp at h

/-- Every entry the inner loop emits comes from some record of the mapping. -/
theorem mem_collect_staff {minR : ℕ} {label : String} :
    ∀ {m : List (String × RawStaff)} {res : List RankEntry} {e : RankEntry},
    collect_staff m minR label = .ok res → e ∈ res →
    ∃ sid s, (sid, s) ∈ m ∧ staff_entry_step minR label s = .ok (some e) := by
  intro m
  induction m with
  | nil =>
    intro res e h he
    simp only [collect_staff] at h
    cases h
    simp at he
  | cons p rest ih =>
    intro res e h he
    obtain ⟨sid, s⟩ := p
    unfold collect_staff at h
    cases h1 : staff_entry_step minR label s with
    | error err => rw [h1] at h; exact Except.noConfusion h
    | ok eo =>
      rw [h1] at h
      cases h2 : collect_staff rest minR label with
      | error err => rw [h2] at h; exact Except.noConfusion h
      | ok r =>
        rw [h2] at h
        injection h with h'
        subst h'
        cases eo with
        | none =>
          obtain ⟨sid', s', hmem, hstep⟩ := ih h2 he
          exact ⟨sid', s', List.mem_cons_of_mem _ hmem, hstep⟩
        | some x =>
          rcases List.mem_cons.mp he with rfl | he'
          · exact ⟨sid, s, List.mem_cons_self _ _, h1⟩
          · obtain ⟨sid', s', hmem, hstep⟩ := ih h2 he'
            exact ⟨sid', s', List.mem_cons_of_mem _ hmem, hstep⟩

/-- A category that emits at least one entry is a non-kitchen category holding
a staff mapping, scanned with `collect_staff`. -/
theorem collect_cat_ok {minR : ℕ} {c : String} {v : CatValue} {e1 : List RankEntry}
    (h : collect_cat minR c v = .ok e1) (hne : e1 ≠ []) :
    c ∉ kitchenKeys ∧ ∃ m, v = .staff m ∧ collect_staff m minR (cat_label c) = .ok e1 := by
  unfold collect_cat at h
  by_cases hk : c ∈ kitchenKeys
  · rw [if_pos hk] at h
    injection h with h'
    exact absurd h'.symm hne
  · rw [if_neg hk] at h
    cases v with
    | workshop w =>
      replace h : (if w.rating = none ∧ w.reviews = none
          then (Except.ok [] : Except String (List RankEntry))
          else Except.error "AttributeError") = Except.ok e1 := h
      by_cases hw : w.rating = none ∧ w.reviews = none
      · rw [if_pos hw] at h
        injection h with h'
        exact absurd h'.symm hne
      · rw [if_neg hw] at h
        exact Except.noConfusion h
    | staff m => exact ⟨hk, m, rfl, h⟩

/-- Every collected entry originates in a non-kitchen category's staff
mapping, via `staff_entry_step`. -/
theorem mem_collect_entries {minR : ℕ} :
    ∀ {doc : Doc} {res : List RankEntry} {e : RankEntry},
    collect_entries doc minR = .ok res → e ∈ res →
    ∃ cat m sid s, (cat, CatValue.staff m) ∈ doc ∧ cat ∉ kitchenKeys ∧ (sid, s) ∈ m ∧
      staff_entry_step minR (cat_label cat) s = .ok (some e) := by
  intro doc
  induction doc with
  | nil =>
    intro res e h he
    simp only [collect_entries] at h
    cases h
    simp at he
  | cons p rest ih =>
    intro res e h he
    obtain ⟨c, v⟩ := p
    unfold collect_entries at h
    cases h1 : collect_cat minR c v with
    | error err => rw [h1] at h; exact Except.noConfusion h
    | ok e1 =>
      rw [h1] at h
      cases h2 : collect_entries rest minR with
      | error err => rw [h2] at h; exact Except.noConfusion h
      | ok r =>
        rw [h2] at h
        injection h with h'
        subst h'
        rcases List.mem_append.mp he with he1 | he2
        · obtain ⟨hnk, m, rfl, hcs⟩ := collect_cat_ok h1 (List.ne_nil_of_mem he1)
          obtain ⟨sid, s, hmem, hstep⟩ := mem_collect_staff hcs he1
          exact ⟨c, m, sid, s, List.mem_cons_self _ _, hnk, hmem, hstep⟩
        · obtain ⟨cat, m, sid, s, hmem, hnk, hm, hstep⟩ := ih h2 he2
          exact ⟨cat, m, sid, s, List.mem_cons_of_mem _ hmem, hnk, hm, hstep⟩

/-- A successful `get_top_staff` is the stable sort of the collected entries,
truncated. -/
theorem get_top_staff_ok {doc : Doc} {minR lim : ℕ} {res : List RankEntry}
    (h : get_top_staff doc minR lim = .ok res) :
    ∃ C, collect_entries doc minR = .ok C ∧
      res = (C.mergeSort ratingDescending).take lim := by
  unfold get_top_staff get_top_staff_sorted at h
  cases hC : collect_entries doc minR with
  | error err => rw [hC] at h; exact Except.noConfusion h
  | ok C =>
    rw [hC] at h
    injection h with h'
    exact ⟨C, rfl, h'.symm⟩

/-- Claim C4: a successful ranking has at most `limit` entries, is sorted by
rating in descending order, and every entry stems from a staff record in a
non-kitchen category with positive rating and at least `min_reviews` reviews. -/
theorem get_top_staff_spec (doc : Doc) (minR lim : ℕ) (res : List RankEntry)
    (h : get_top_staff doc minR lim = .ok res) :
    res.length ≤ lim ∧
    res.Pairwise (fun a b => b.rating ≤ a.rating) ∧
    ∀ e ∈ res, 0 < e.rating ∧ minR ≤ e.reviews ∧
      ∃ cat m sid s, (cat, CatValue.staff m) ∈ doc ∧ cat ∉ kitchenKeys ∧
        (sid, s) ∈ m ∧ staff_entry_step minR (cat_label cat) s = .ok (some e) := by
  obtain ⟨C, hC, rfl⟩ := get_top_staff_ok h
  refine ⟨List.length_take_le _ _, ?_, ?_⟩
  · have hs := List.sorted_mergeSort ratingDescending_trans ratingDescending_total C
    exact (List.Pairwise.sublist (List.take_sublist _ _) hs).imp fun hab =>
      of_decide_eq_true hab
  · intro e he
    have heC : e ∈ C := List.mem_mergeSort.mp (List.take_subset _ _ he)
    obtain ⟨cat, m, sid, s, hmem, hnk, hm, hstep⟩ := mem_collect_entries hC heC
    obtain ⟨h1, h2, _⟩ := staff_entry_step_ok_some hstep
    exact ⟨h1, h2, cat, m, sid, s, hmem, hnk, hm, hstep⟩

/-- Claim C4, witness: the fresh default document ranks to the empty list. -/
theorem get_top_staff_spec_witness :
    get_top_staff freshDoc 3 10 = .ok [] ∧
    (([] : List RankEntry).length ≤ 10 ∧
     ([] : List RankEntry).Pairwise (fun a b => b.rating ≤ a.rating) ∧
     ∀ e ∈ ([] : List RankEntry), 0 < e.rating ∧ 3 ≤ e.reviews ∧
       ∃ cat m sid s, (cat, CatValue.staff m) ∈ freshDoc ∧ cat ∉ kitchenKeys ∧
         (sid, s) ∈ m ∧ staff_entry_step 3 (cat_label cat) s = .ok (some e)) :=
  have h1 : collect_entries freshDoc 3 = .ok [] := by decide
  have h2 : get_top_staff freshDoc 3 10 = .ok [] := by
    simp [get_top_staff, get_top_staff_sorted, h1, Except.map]
  ⟨h2, get_top_staff_spec freshDoc 3 10 [] h2⟩


/-- Claim C5: the ranking is stable — entries with equal rating keep their
encounter order (category order, then insertion order within a category, as
produced by `collect_entries`; the sort has no secondary key) — and the
published result is the sorted list truncated to the first `limit` entries. -/
theorem get_top_staff_stable (doc : Doc) (minR lim : ℕ) (C srt : List RankEntry)
    (hC : collect_entries doc minR = .ok C)
    (hs : get_top_staff_sorted doc minR = .ok srt) :
    get_top_staff doc minR lim = .ok (srt.take lim) ∧
    ∀ q : ℚ, srt.filter (fun e => decide (e.rating = q)) =
      C.filter (fun e => decide (e.rating = q)) := by
  have hsrt : srt = C.mergeSort ratingDescending := by
    unfold get_top_staff_sorted at hs
    rw [hC] at hs
    injection hs with h'
    exact h'.symm
  constructor
  · unfold get_top_staff
    rw [hs]
    rfl
  · intro q
    subst hsrt
    set p : RankEntry → Bool := fun e => decide (e.rating = q) with hp
    have hpair : (C.filter p).Pairwise fun a b => ratingDescending a b = true := by
      apply List.pairwise_of_forall_mem_list
      intro a ha b hb
      rw [hp, List.mem_filter] at ha hb
      simp only [decide_eq_true_eq] at ha hb
      simp only [ratingDescending, decide_eq_true_eq, ha.2, hb.2, le_refl]
    have hsub : List.Sublist (C.filter p) (C.mergeSort ratingDescending) :=
      List.sublist_mergeSort ratingDescending_trans ratingDescending_total hpair
        (List.filter_sublist C)
    have hsub2 : List.Sublist (C.filter p) ((C.mergeSort ratingDescending).filter p) := by
      have h' := hsub.filter p
      rwa [List.filter_filter,
        show (fun a => p a && p a) = p from funext fun a => Bool.and_self _] at h'
    have hlen : ((C.mergeSort ratingDescending).filter p).length = (C.filter p).length :=
      ((List.mergeSort_perm C ratingDescending).filter p).length_eq
    exact (hsub2.eq_of_length hlen.symm).symm

/-- Claim C5, witness: two equally-rated waiters stay in insertion order and
truncation to one entry keeps only the first. -/
theorem get_top_staff_stable_witness :
    get_top_staff stableWitnessDoc 1 1 = .ok (stableWitnessCollected.take 1) ∧
    ∀ q : ℚ, stableWitnessCollected.filter (fun e => decide (e.rating = q)) =
      stableWitnessCollected.filter (fun e => decide (e.rating = q)) :=
  have hC : collect_entries stableWitnessDoc 1 = .ok stableWitnessCollected := by decide
  have hsorted : stableWitnessCollected.Pairwise fun a b => ratingDescending a b = true := by
    decide
  have hs : get_top_staff_sorted stableWitnessDoc 1 = .ok stableWitnessCollected := by
    simp [get_top_staff_sorted, hC, Except.map, List.mergeSort_of_sorted hsorted]
  get_top_staff_stable stableWitnessDoc 1 1 stableWitnessCollected stableWitnessCollected hC hs




/-- `load_staff_data` on an existing document is the five back-fill steps in
`ALL_CATEGORIES` order. -/
theorem load_some_eq (d : Doc) :
    load_staff_data (some d) =
      setKitchenDefaults
        (setKitchenDefaults
          (setKitchenDefaults
            (setStaffDefault (setStaffDefault d "waiters") "bartenders")
            "cold_kitchen")
          "hot_kitchen")
        "pastry_kitchen" := rfl

/-- `List.lookup` on a cons cell, in `if` form. -/
theorem lookup_cons_ite {α β : Type _} [BEq α] (a k : α) (b : β) (es : List (α × β)) :
    ((k, b) :: es).lookup a = if a == k then some b else es.lookup a := by
  rw [List.lookup_cons]
  cases h : a == k <;> simp

/-- Looking a key up after `setStaffDefault`. -/
theorem lookupCat_setStaffDefault (d : Doc) (k k2 : String) :
    lookupCat (setStaffDefault d k) k2 =
      if k2 = k then some ((lookupCat d k).getD (.staff [])) else lookupCat d k2 := by
  induction d with
  | nil =>
    by_cases h : k2 = k <;>
      simp [setStaffDefault, lookupCat, lookup_cons_ite, beq_iff_eq, h]
  | cons p rest ih =>
    obtain ⟨k', v⟩ := p
    by_cases h1 : k' = k
    · subst h1
      by_cases h2 : k2 = k' <;>
        simp [setStaffDefault, lookupCat, lookup_cons_ite, beq_iff_eq, h2]
    · by_cases h2 : k2 = k'
      · subst h2
        simp [setStaffDefault, lookupCat, lookup_cons_ite, beq_iff_eq, h1,
          fun hh => h1 (Eq.symm hh)]
      · have h3 : ¬ k = k' := fun hh => h1 hh.symm
        simp only [setStaffDefault, if_neg h1]
        simp only [lookupCat, lookup_cons_ite, beq_iff_eq] at ih ⊢
        simp [h2, h3, ih]

/-- Looking a key up after `setKitchenDefaults`. -/
theorem lookupCat_setKitchenDefaults (d : Doc) (k k2 : String) :
    lookupCat (setKitchenDefaults d k) k2 =
      if k2 = k then some (backfillKitchenValue (lookupCat d k)) else lookupCat d k2 := by
  induction d with
  | nil =>
    by_cases h : k2 = k <;>
      simp [setKitchenDefaults, lookupCat, lookup_cons_ite, beq_iff_eq, h]
  | cons p rest ih =>
    obtain ⟨k', v⟩ := p
    by_cases h1 : k' = k
    · subst h1
      by_cases h2 : k2 = k' <;>
        simp [setKitchenDefaults, lookupCat, lookup_cons_ite, beq_iff_eq, h2]
    · by_cases h2 : k2 = k'
      · subst h2
        simp [setKitchenDefaults, lookupCat, lookup_cons_ite, beq_iff_eq, h1,
          fun hh => h1 (Eq.symm hh)]
      · have h3 : ¬ k = k' := fun hh => h1 hh.symm
        simp only [setKitchenDefaults, if_neg h1]
        simp only [lookupCat, lookup_cons_ite, beq_iff_eq] at ih ⊢
        simp [h2, h3, ih]



/-- Claim C6: loading an existing document back-fills every missing key rather
than failing: a missing workshop category becomes `{rating: 0, reviews: []}`,
a workshop entry missing `rating` or `reviews` gets that field defaulted, a
missing staff category becomes an empty mapping; in particular a document
missing `cold_kitchen` gets it back-filled as `{rating: 0, reviews: []}`.
(`load_staff_data` is a total function: no input raises.) -/
theorem load_backfills_missing (d : Doc) :
    (∀ k, k ∈ kitchenKeys →
      (lookupCat d k = none →
        lookupCat (load_staff_data (some d)) k = some (.workshop ⟨some 0, some []⟩)) ∧
      (∀ w, lookupCat d k = some (.workshop w) →
        lookupCat (load_staff_data (some d)) k =
          some (.workshop ⟨some (w.rating.getD 0), some (w.reviews.getD [])⟩))) ∧
    (∀ k, k ∈ allKeys → k ∉ kitchenKeys → lookupCat d k = none →
      lookupCat (load_staff_data (some d)) k = some (.staff [])) ∧
    (lookupCat d "cold_kitchen" = none →
      lookupCat (load_staff_data (some d)) "cold_kitchen" =
        some (.workshop ⟨some 0, some []⟩)) := by
  refine ⟨?_, ?_, ?_⟩
  · intro k hk
    have hk' : k = "cold_kitchen" ∨ k = "hot_kitchen" ∨ k = "pastry_kitchen" := by
      simpa [kitchenKeys, KITCHEN_CATEGORIES] using hk
    rcases hk' with rfl | rfl | rfl <;>
      exact ⟨fun h0 => by
          simp [load_some_eq, lookupCat_setKitchenDefaults, lookupCat_setStaffDefault,
            h0, backfillKitchenValue],
        fun w hw => by
          simp [load_some_eq, lookupCat_setKitchenDefaults, lookupCat_setStaffDefault,
            hw, backfillKitchenValue]⟩
  · intro k hka hknk h0
    have hk' : k = "waiters" ∨ k = "bartenders" := by
      simp only [allKeys, ALL_CATEGORIES, KITCHEN_CATEGORIES, kitchenKeys,
        List.map_cons, List.map_nil, List.map_append, List.mem_cons,
        List.mem_append, List.not_mem_nil, or_false] at hka hknk
      tauto
    rcases hk' with rfl | rfl <;>
      simp [load_some_eq, lookupCat_setKitchenDefaults, lookupCat_setStaffDefault, h0]
  · intro h0
    simp [load_some_eq, lookupCat_setKitchenDefaults, lookupCat_setStaffDefault,
      h0, backfillKitchenValue]

/-- Claim C6, witness: loading the empty document back-fills `cold_kitchen`
with `{rating: 0, reviews: []}` and `waiters` with an empty staff mapping. -/
theorem load_backfills_missing_witness :
    lookupCat (load_staff_data (some [])) "cold_kitchen" =
      some (.workshop ⟨some 0, some []⟩) ∧
    lookupCat (load_staff_data (some [])) "waiters" = some (.staff []) :=
  ⟨((load_backfills_missing []).1 "cold_kitchen" (by decide)).1 rfl,
   (load_backfills_missing []).2.1 "waiters" (by decide) (by decide) rfl⟩



theorem setStaffDefault_of_mem (d : Doc) (k : String)
    (h : (lookupCat d k).isSome = true) : setStaffDefault d k = d := by
  induction d with
  | nil => simp [lookupCat] at h
  | cons p rest ih =>
    obtain ⟨k', v⟩ := p
    by_cases h1 : k' = k
    · simp [setStaffDefault, h1]
    · simp only [lookupCat, lookup_cons_ite, beq_iff_eq] at h
      rw [if_neg (fun hh => h1 hh.symm)] at h
      simp [setStaffDefault, h1, ih h]

theorem setKitchenDefaults_of_mem (d : Doc) (k : String) (v : CatValue)
    (h : lookupCat d k = some v) (hb : backfillKitchenValue (some v) = v) :
    setKitchenDefaults d k = d := by
  induction d with
  | nil => simp [lookupCat] at h
  | cons p rest ih =>
    obtain ⟨k', v'⟩ := p
    by_cases h1 : k' = k
    · subst h1
      simp only [lookupCat, lookup_cons_ite, beq_iff_eq, if_pos rfl] at h
      injection h with h2
      subst h2
      simp [setKitchenDefaults, hb]
    · simp only [lookupCat, lookup_cons_ite, beq_iff_eq] at h
      rw [if_neg (fun hh => h1 hh.symm)] at h
      simp [setKitchenDefaults, h1, ih h]

theorem doc_complete_parts {d : Doc} (h : doc_complete d = true) :
    (∀ k, k ∈ kitchenKeys → ∃ w, lookupCat d k = some (.workshop w) ∧
      backfillKitchenValue (some (.workshop w)) = .workshop w) ∧
    (∀ k, k ∈ allKeys → k ∉ kitchenKeys → (lookupCat d k).isSome = true) := by
  unfold doc_complete at h
  rw [Bool.and_eq_true, List.all_eq_true, List.all_eq_true] at h
  obtain ⟨h1, h2⟩ := h
  constructor
  · intro k hk
    have hx := h1 k hk
    cases hl : lookupCat d k with
    | none => rw [hl] at hx; exact absurd hx (by simp)
    | some v =>
      cases v with
      | staff m => rw [hl] at hx; exact absurd hx (by simp)
      | workshop w =>
        rw [hl] at hx
        obtain ⟨wr, wv⟩ := w
        simp only [Bool.and_eq_true] at hx
        refine ⟨⟨wr, wv⟩, rfl, ?_⟩
        cases wr with
        | none => simp at hx
        | some r =>
          cases wv with
          | none => simp at hx
          | some rs => simp [backfillKitchenValue]
  · intro k hka hknk
    have hx := h2 k hka
    rw [Bool.or_eq_true] at hx
    rcases hx with hc | hs
    · exact absurd (by simpa using hc) hknk
    · exact hs

/-- Claim C7: saving and re-loading an in-memory document (i.e. one with the
complete shape `load_staff_data` establishes) reproduces it exactly: same
categories, same staff entries, same review sequences and order, same
ratings. -/
theorem save_load_roundtrip (d : Doc) (h : doc_complete d = true) :
    load_staff_data (some (save_staff_data d)) = d := by
  obtain ⟨hk, hs⟩ := doc_complete_parts h
  obtain ⟨wc, hwc, hbc⟩ := hk "cold_kitchen" (by decide)
  obtain ⟨wh, hwh, hbh⟩ := hk "hot_kitchen" (by decide)
  obtain ⟨wp, hwp, hbp⟩ := hk "pastry_kitchen" (by decide)
  have hw := hs "waiters" (by decide) (by decide)
  have hb := hs "bartenders" (by decide) (by decide)
  show load_staff_data (some d) = d
  rw [load_some_eq,
    setStaffDefault_of_mem d _ hw,
    setStaffDefault_of_mem d _ hb,
    setKitchenDefaults_of_mem d _ _ hwc hbc,
    setKitchenDefaults_of_mem d _ _ hwh hbh,
    setKitchenDefaults_of_mem d _ _ hwp hbp]

/-- Claim C7, witness: the fresh default document round-trips. -/
theorem save_load_roundtrip_witness :
    doc_complete freshDoc = true ∧
    load_staff_data (some (save_staff_data freshDoc)) = freshDoc :=
  ⟨by decide, save_load_roundtrip freshDoc (by decide)⟩

/-- Claim C8: when the eligibility guard rejects a reviewer, both review-start
handlers answer with a non-blocking alert and return: the store is unchanged
(so the target's reviews and rating are unchanged), the session state is
unchanged (none created or modified), and the response is not the rating
prompt, so the flow does not enter the rating phase. -/
theorem review_start_rejected (doc : Doc) (fsm : FSMState) (uid now : ℤ) :
    (∀ cat sid staff revs, lookupStaff doc cat sid = some staff →
      staff.reviews = some revs → can_leave_review revs uid now = false →
      review_staff_start doc cat sid uid now fsm =
        .ok (doc, fsm, .alert "❌ Вы уже оставляли отзыв этому сотруднику сегодня")) ∧
    (∀ cat w revs, lookupCat doc cat = some (.workshop w) →
      w.reviews = some revs → can_leave_review revs uid now = false →
      review_workshop_start doc cat uid now fsm =
        .ok (doc, fsm, .alert "❌ Вы уже оставляли отзыв этому цеху сегодня")) := by
  constructor
  · intro cat sid staff revs hl hr hg
    simp [review_staff_start, hl, hr, hg]
  · intro cat w revs hl hr hg
    simp [review_workshop_start, hl, hr, hg]

/-- Claim C8, witness: user 7, 12 hours after reviewing waiter `s1` and the
cold-kitchen workshop, is rejected by both handlers with no state change. -/
theorem review_start_rejected_witness :
    review_staff_start rejectWitnessDoc "waiters" "s1" 7 43200 emptyFSM =
      .ok (rejectWitnessDoc, emptyFSM,
        .alert "❌ Вы уже оставляли отзыв этому сотруднику сегодня") ∧
    review_workshop_start rejectWitnessDoc "cold_kitchen" 7 43200 emptyFSM =
      .ok (rejectWitnessDoc, emptyFSM,
        .alert "❌ Вы уже оставляли отзыв этому цеху сегодня") :=
  ⟨(review_start_rejected rejectWitnessDoc emptyFSM 7 43200).1 "waiters" "s1" staffRecent
      [recentReview] (by decide) rfl (by decide),
   (review_start_rejected rejectWitnessDoc emptyFSM 7 43200).2 "cold_kitchen"
      ⟨some 5, some [recentReview]⟩ [recentReview] (by decide) rfl (by decide)⟩

/-- Claim C9: a staff record lacking its `rating` key or its `reviews` key does
not make the ranking fail: the defaults `0` and `[]` exclude it from the
ranking (given the minimum-review threshold is at least 1, as the default 3
is), rather than raising a missing-key error. -/
theorem missing_fields_excluded (minR lim : ℕ) (label cat sid : String) (s : RawStaff)
    (hmin : 1 ≤ minR) (h : s.rating = none ∨ s.reviews = none) :
    staff_entry_step minR label s = .ok none ∧
    (cat ∉ kitchenKeys →
      get_top_staff [(cat, .staff [(sid, s)])] minR lim = .ok []) := by
  have hnc : ¬(0 < s.rating.getD 0 ∧ minR ≤ (s.reviews.getD []).length) := by
    rintro ⟨h1, h2⟩
    rcases h with h | h
    · rw [h] at h1
      simp at h1
    · rw [h] at h2
      simp at h2
      omega
  have hstep : ∀ lb, staff_entry_step minR lb s = .ok none := fun lb => by
    unfold staff_entry_step
    rw [if_neg hnc]
  refine ⟨hstep label, fun hcat => ?_⟩
  simp [get_top_staff, get_top_staff_sorted, collect_entries, collect_cat, collect_staff,
    hstep, hcat, Except.map]

/-- Claim C9, witness: a record with no `rating` and no `reviews` key is
skipped and the ranking of a store holding only it succeeds, empty. -/
theorem missing_fields_excluded_witness :
    staff_entry_step 3 (cat_label "waiters") noRatingStaff = .ok none ∧
    get_top_staff [("waiters", .staff [("s1", noRatingStaff)])] 3 10 = .ok [] :=
  have h := missing_fields_excluded 3 10 (cat_label "waiters") "waiters" "s1" noRatingStaff
    (by decide) (Or.inl rfl)
  ⟨h.1, h.2 (by decide)⟩

end Foros
